import Mathlib

/-!
# xylib file cache (`xylib/cache.h`)

A shallow embedding of the `xylib::Cache` singleton and of the `cached_load_file`
entry points, together with the properties stated about them.

* `CachedFile`, `Cache`, `Cache.Get`, `Cache.get_number_of_cached_files`,
  `Cache.clear_cache`, `cached_load_file` and `cached_load_file_options` follow the
  header line by line.
* `Cache::load_file` and `Cache::set_number_of_cached_files` are only declared in
  the header; their bodies are modelled from the specification (section 4.2 and 4.3).
* The loader (`xylib::load_file` of `xylib.h`) and the clock behind `std::time(NULL)`
  are external: they are parameters (`Env`) acting on an abstract external state.
-/

namespace xylib

deriving instance DecidableEq for Except

/-- The three values a request is made of: path, format name, options. -/
abbrev Key := String × String × List String

/-- The external collaborators of the cache: `load` is `xylib::load_file` of `xylib.h`
(it reads the outside world `σ`, may change it, and either produces a dataset handle or
fails with `E`), `time` is `std::time(NULL)`. -/
structure Env (σ D E : Type) where
  load : String → String → List String → σ → Except E D × σ
  time : σ → Int

/-- What is outside the cache: the external state the loader and the clock work on, and
the record of the loader invocations made so far (oldest first). -/
structure World (σ : Type) where
  ext : σ
  loader_calls : List Key
  deriving DecidableEq

/-- `struct Cache::CachedFile` (cache.h, 84-98). `dataset_` is the shared handle:
equality on `D` is identity of the dataset instance. -/
structure CachedFile (D : Type) where
  path_ : String
  format_name_ : String
  options_ : List String
  read_time_ : Int
  dataset_ : D
  deriving DecidableEq

/-- The constructor `CachedFile(path, format_name, options, dataset)` (cache.h, 92-97):
`read_time_` is initialised with `std::time(NULL)`, here the argument `now`. -/
def CachedFile.ctor {D : Type} (now : Int) (path format_name : String)
    (options : List String) (dataset : D) : CachedFile D :=
  { path_ := path, format_name_ := format_name, options_ := options,
    read_time_ := now, dataset_ := dataset }

/-- The key an entry was created with. -/
def CachedFile.key {D : Type} (e : CachedFile D) : Key :=
  (e.path_, e.format_name_, e.options_)

/-- Exact, field by field comparison of an entry's key with a request. -/
def CachedFile.is_match {D : Type} (path format_name : String) (options : List String)
    (e : CachedFile D) : Bool :=
  decide (e.path_ = path) && decide (e.format_name_ = format_name) &&
    decide (e.options_ = options)

/-- The data members of `class Cache` (cache.h, 100-101). `n_cached_files_` is a `size_t`;
it is only stored, read back and compared with a length, never computed with, so it is a
natural number here. -/
structure Cache (D : Type) where
  n_cached_files_ : Nat
  cache_ : List (CachedFile D)
  deriving DecidableEq

/-- The constructor `Cache() : n_cached_files_(1) {}` (cache.h, 103); `cache_` is
default-constructed, hence empty. -/
def Cache.ctor {D : Type} : Cache D :=
  { n_cached_files_ := 1, cache_ := [] }

/-- `get_number_of_cached_files()` (cache.h, 76). -/
def Cache.get_number_of_cached_files {D : Type} (c : Cache D) : Nat :=
  c.n_cached_files_

/-- `clear_cache()` (cache.h, 79): `cache_.clear()`. -/
def Cache.clear_cache {D : Type} (c : Cache D) : Cache D :=
  { c with cache_ := [] }

/-- Modelled from the spec: the trimming loop of `Cache::load_file` and of
`Cache::set_number_of_cached_files`, whose bodies are defined outside cache.h. Sections
4.2 and 4.3: trim from the front (oldest first) while the length exceeds `n`. -/
def trim {α : Type} (n : Nat) : List α → List α
  | [] => []
  | x :: xs => if n < (x :: xs).length then trim n xs else x :: xs

/-- Modelled from the spec: the body of `Cache::set_number_of_cached_files`, declared in
cache.h (74) and defined outside it. Section 4.3: sets the maximum number of retained
entries to `n`; if the current sequence length exceeds `n`, trim immediately from the
front (oldest first) until length ≤ n. -/
def Cache.set_number_of_cached_files {D : Type} (c : Cache D) (n : Nat) : Cache D :=
  { n_cached_files_ := n, cache_ := trim n c.cache_ }

/-- Modelled from the spec: the body of `Cache::load_file`, declared in cache.h (68-71)
and defined outside it. Section 4.2: scan the entries in current order for an exact key
match; on a hit return the stored handle unchanged; on a miss call the loader with the
same three inputs; if it fails the failure propagates and the cache is unchanged; if it
succeeds wrap the result in a new entry with the current timestamp, append it at the end,
trim from the front while the length exceeds the capacity, and return the new handle.
The result is the returned value (or the failure), the cache afterwards and the world
afterwards. -/
def Cache.load_file {σ D E : Type} (env : Env σ D E) (c : Cache D) (w : World σ)
    (path format_name : String) (options : List String) :
    Except E D × Cache D × World σ :=
  match c.cache_.find? (CachedFile.is_match path format_name options) with
  | some e => (Except.ok e.dataset_, c, w)
  | none =>
    let r := env.load path format_name options w.ext
    let w1 : World σ :=
      { ext := r.2, loader_calls := w.loader_calls ++ [(path, format_name, options)] }
    match r.1 with
    | Except.error err => (Except.error err, c, w1)
    | Except.ok ds =>
      let e := CachedFile.ctor (env.time r.2) path format_name options ds
      (Except.ok ds,
        { n_cached_files_ := c.n_cached_files_,
          cache_ := trim c.n_cached_files_ (c.cache_ ++ [e]) },
        w1)

/-- The memory of the process as far as the cache is concerned: the static pointer
`Cache::instance_` (cache.h, 82; `none` is `NULL`) and the `Cache` objects created by
`new Cache()`, the address of an object being its position in `heap`. -/
structure Process (D : Type) where
  instance_ : Option Nat
  heap : List (Cache D)
  deriving DecidableEq

/-- `Cache::Get()` (cache.h, 63-64):
`if (instance_ == NULL) instance_ = new Cache(); return instance_;`.
Returns the pointer and the memory afterwards. -/
def Cache.Get {D : Type} (s : Process D) : Nat × Process D :=
  match s.instance_ with
  | none =>
    (s.heap.length, { instance_ := some s.heap.length, heap := s.heap ++ [Cache.ctor] })
  | some p => (p, s)

/-- The type of an implementation of the member function `Cache::load_file`. -/
abbrev LoadFile (σ D E : Type) :=
  Cache D → World σ → String → String → List String → Except E D × Cache D × World σ

/-- The call `p->load_file(path, format_name, options)` through a pointer: `none` when
`p` points to no object (undefined behaviour in C++). The object is updated in place. -/
def Process.load_file {σ D E : Type} (lf : LoadFile σ D E) (p : Nat)
    (path format_name : String) (options : List String) (s : Process D) (w : World σ) :
    Option (Except E D × Process D × World σ) :=
  match s.heap[p]? with
  | none => none
  | some c =>
    let r := lf c w path format_name options
    some (r.1, { instance_ := s.instance_, heap := s.heap.set p r.2.1 }, r.2.2)

/-- `cached_load_file(path, format_name, options)` (cache.h, 106-113):
`return Cache::Get()->load_file(path, format_name, options);`. -/
def cached_load_file {σ D E : Type} (lf : LoadFile σ D E)
    (path format_name : String) (options : List String) (s : Process D) (w : World σ) :
    Option (Except E D × Process D × World σ) :=
  Process.load_file lf (Cache.Get s).1 path format_name options (Cache.Get s).2 w

/-- `cached_load_file(path, options)` (cache.h, 115-124), "format is passed as the first
option": `options.empty() ? cached_load_file(path)
: cached_load_file(path, options[0], vector(options.begin()+1, options.end()))`, where
`cached_load_file(path)` takes the default arguments `""` and the empty vector. -/
def cached_load_file_options {σ D E : Type} (lf : LoadFile σ D E)
    (path : String) (options : List String) (s : Process D) (w : World σ) :
    Option (Except E D × Process D × World σ) :=
  match options with
  | [] => cached_load_file lf path "" [] s w
  | o :: rest => cached_load_file lf path o rest s w

/-- The operations a caller can apply to a cache. -/
inductive Op where
  | load_file (path format_name : String) (options : List String)
  | set_number_of_cached_files (n : Nat)
  | clear_cache

/-- One operation applied to a cache and the world around it. -/
def Cache.step {σ D E : Type} (env : Env σ D E) (cw : Cache D × World σ) :
    Op → Cache D × World σ
  | Op.load_file path format_name options =>
    (Cache.load_file env cw.1 cw.2 path format_name options).2
  | Op.set_number_of_cached_files n => (cw.1.set_number_of_cached_files n, cw.2)
  | Op.clear_cache => (cw.1.clear_cache, cw.2)

/-- A finite sequence of operations, applied from left to right. -/
def Cache.run {σ D E : Type} (env : Env σ D E) (cw : Cache D × World σ)
    (ops : List Op) : Cache D × World σ :=
  ops.foldl (Cache.step env) cw

/-- The calls `load_file(k)` for the keys of a list, in order: the results of the calls,
the cache afterwards and the world afterwards. -/
def Cache.load_files {σ D E : Type} (env : Env σ D E) (c : Cache D) (w : World σ) :
    List Key → List (Except E D) × Cache D × World σ
  | [] => ([], c, w)
  | k :: ks =>
    let r := Cache.load_file env c w k.1 k.2.1 k.2.2
    let rs := Cache.load_files env r.2.1 r.2.2 ks
    (r.1 :: rs.1, rs.2)

/-- A pointer held in `instance_` points to an object. -/
def Process.valid {D : Type} (s : Process D) : Prop :=
  ∀ p, s.instance_ = some p → p < s.heap.length

/-- The two properties every state produced from a new cache has. -/
def Cache.inv {D : Type} (c : Cache D) : Prop :=
  c.cache_.length ≤ c.n_cached_files_ ∧ (c.cache_.map CachedFile.key).Nodup

/-! ## Sample data -/

/-- A loader that fails on the path `"bad"` and otherwise hands out a fresh dataset
number; the external state counts the loader invocations and is the clock. -/
def sampleEnv : Env Nat Nat String where
  load := fun path _ _ t =>
    if path = "bad" then (Except.error "cannot load", t + 1) else (Except.ok t, t + 1)
  time := fun t => (t : Int)

/-- A world in which nothing has been loaded yet. -/
def sampleWorld : World Nat :=
  { ext := 0, loader_calls := [] }

/-- An entry for the key `("a", "", [])` holding dataset `7`. -/
def sampleEntry : CachedFile Nat :=
  { path_ := "a", format_name_ := "", options_ := [], read_time_ := 3, dataset_ := 7 }

/-- A cache of capacity 2 holding two entries. -/
def sampleCache : Cache Nat :=
  { n_cached_files_ := 2,
    cache_ := [sampleEntry,
      { path_ := "b", format_name_ := "x", options_ := ["o"], read_time_ := 4,
        dataset_ := 8 }] }

/-- The cache after loading the keys `a`, `b`, `c` with capacity 2 in the sample world. -/
def sampleEvicted : Cache Nat :=
  { n_cached_files_ := 2,
    cache_ := [
      { path_ := "b", format_name_ := "", options_ := [], read_time_ := 2, dataset_ := 1 },
      { path_ := "c", format_name_ := "", options_ := [], read_time_ := 3, dataset_ := 2 }] }

/-- The world after loading the keys `a`, `b`, `c` in the sample world. -/
def sampleLoaded : World Nat :=
  { ext := 3, loader_calls := [("a", "", []), ("b", "", []), ("c", "", [])] }

/-! ## Trimming -/

theorem trim_eq_drop {α : Type} (n : Nat) (l : List α) :
    trim n l = l.drop (l.length - n) := by
  induction l with
  | nil => simp [trim]
  | cons x xs ih =>
    unfold trim
    by_cases h : n < (x :: xs).length
    · rw [if_pos h, ih]
      have h1 : (x :: xs).length - n = (xs.length - n) + 1 := by
        simp only [List.length_cons] at h ⊢
        omega
      rw [h1, List.drop_succ_cons]
    · rw [if_neg h]
      have h1 : (x :: xs).length - n = 0 := by omega
      rw [h1, List.drop_zero]

theorem trim_length {α : Type} (n : Nat) (l : List α) :
    (trim n l).length = min l.length n := by
  rw [trim_eq_drop, List.length_drop]
  omega

theorem trim_length_le {α : Type} (n : Nat) (l : List α) : (trim n l).length ≤ n := by
  rw [trim_length]
  exact Nat.min_le_right _ _

theorem trim_of_length_le {α : Type} (n : Nat) (l : List α) (h : l.length ≤ n) :
    trim n l = l := by
  rw [trim_eq_drop, Nat.sub_eq_zero_of_le h, List.drop_zero]

theorem trim_suffix {α : Type} (n : Nat) (l : List α) : trim n l <:+ l := by
  rw [trim_eq_drop]
  exact List.drop_suffix _ _

theorem trim_subset {α : Type} (n : Nat) (l : List α) : ∀ x ∈ trim n l, x ∈ l :=
  fun _ hx => (trim_suffix n l).subset hx

theorem trim_trim_append {α : Type} (n : Nat) (l l2 : List α) :
    trim n (trim n l ++ l2) = trim n (l ++ l2) := by
  rw [trim_eq_drop n l]
  have h1 : l.drop (l.length - n) ++ l2 = (l ++ l2).drop (l.length - n) := by
    rw [List.drop_append_of_le_length (Nat.sub_le _ _)]
  rw [h1, trim_eq_drop, trim_eq_drop, List.drop_drop, List.length_drop, List.length_append]
  congr 1
  omega

/-! ## Capacity management and clearing -/

/-- C5. After `set_number_of_cached_files(n)` the capacity reads back as `n` and the
entry sequence is exactly the last `min(L, n)` entries of the former sequence (of length
`L`) in their original order: it is the former sequence without its first `L - min(L, n)`
entries, it has `min(L, n)` entries, it is the former sequence when `L ≤ n` and it is empty
when `n = 0`. -/
theorem set_number_of_cached_files_trims_oldest_first {D : Type} (c : Cache D) (n : Nat) :
    (c.set_number_of_cached_files n).get_number_of_cached_files = n ∧
    (c.set_number_of_cached_files n).cache_ =
      c.cache_.drop (c.cache_.length - min c.cache_.length n) ∧
    (c.set_number_of_cached_files n).cache_.length = min c.cache_.length n ∧
    (c.cache_.length ≤ n → (c.set_number_of_cached_files n).cache_ = c.cache_) ∧
    (n = 0 → (c.set_number_of_cached_files n).cache_ = []) := by
  refine ⟨rfl, ?_, ?_, ?_, ?_⟩
  · show trim n c.cache_ = _
    rw [trim_eq_drop]
    congr 1
    omega
  · exact trim_length n c.cache_
  · intro h
    exact trim_of_length_le n c.cache_ h
  · intro h
    have h1 := trim_length_le n c.cache_
    rw [h] at h1
    show trim n c.cache_ = []
    rw [h]
    exact List.length_eq_zero.mp (Nat.le_zero.mp h1)

/-- Evaluation of C5 on a cache of capacity 2 holding two entries, trimmed to one. -/
theorem set_number_of_cached_files_trims_oldest_first_witness :
    (sampleCache.set_number_of_cached_files 1).get_number_of_cached_files = 1 ∧
    (sampleCache.set_number_of_cached_files 1).cache_ =
      sampleCache.cache_.drop (sampleCache.cache_.length - min sampleCache.cache_.length 1) ∧
    (sampleCache.set_number_of_cached_files 1).cache_.length =
      min sampleCache.cache_.length 1 ∧
    (sampleCache.cache_.length ≤ 1 →
      (sampleCache.set_number_of_cached_files 1).cache_ = sampleCache.cache_) ∧
    (1 = 0 → (sampleCache.set_number_of_cached_files 1).cache_ = []) :=
  set_number_of_cached_files_trims_oldest_first sampleCache 1

/-- C8. `clear_cache()` is a total function of the cache state: its result has an empty
entry sequence and the capacity of the state it was applied to, so that
`get_number_of_cached_files()` returns the same value before and after. -/
theorem clear_cache_empties_only {D : Type} (c : Cache D) :
    c.clear_cache = { n_cached_files_ := c.n_cached_files_, cache_ := [] } ∧
    c.clear_cache.cache_ = [] ∧
    c.clear_cache.get_number_of_cached_files = c.get_number_of_cached_files :=
  ⟨rfl, rfl, rfl⟩

/-! ## The singleton -/

/-- C7. When no instance exists (`instance_` is `NULL`), `Get()` creates one: the pointer
it returns is stored in `instance_`, it addresses a new object, `get_number_of_cached_files()`
on that object returns 1 and its entry sequence is empty. -/
theorem Get_creates_default_capacity_one {D : Type} (s : Process D)
    (h : s.instance_ = none) :
    (Cache.Get s).2.instance_ = some (Cache.Get s).1 ∧
    (Cache.Get s).1 = s.heap.length ∧
    ∃ c : Cache D, (Cache.Get s).2.heap[(Cache.Get s).1]? = some c ∧
      c.get_number_of_cached_files = 1 ∧ c.cache_ = [] := by
  unfold Cache.Get
  rw [h]
  refine ⟨rfl, rfl, Cache.ctor, ?_, rfl, rfl⟩
  simp

/-- Evaluation of C7 on the memory of a process that has not used the cache yet. -/
theorem Get_creates_default_capacity_one_witness :
    (Cache.Get (⟨none, []⟩ : Process Nat)).2.instance_ =
      some (Cache.Get (⟨none, []⟩ : Process Nat)).1 ∧
    (Cache.Get (⟨none, []⟩ : Process Nat)).1 = (⟨none, []⟩ : Process Nat).heap.length ∧
    ∃ c : Cache Nat,
      (Cache.Get (⟨none, []⟩ : Process Nat)).2.heap[(Cache.Get (⟨none, []⟩ : Process Nat)).1]?
        = some c ∧
      c.get_number_of_cached_files = 1 ∧ c.cache_ = [] :=
  Get_creates_default_capacity_one ⟨none, []⟩ rfl

/-- C9. Once an instance exists (`instance_` holds the pointer `p`), `Get()` returns `p`
and leaves the whole memory unchanged: no object is created and the object `p` points to
keeps its capacity and its entry sequence. Whatever the memory, a second `Get()` returns
the pointer of the first and changes nothing, and `Get()` creates an object only when
`instance_` is `NULL`. -/
theorem Get_idempotent {D : Type} (s : Process D) (p : Nat) (h : s.instance_ = some p) :
    Cache.Get s = (p, s) ∧
    (Cache.Get s).2.heap[p]? = s.heap[p]? ∧
    (∀ t : Process D, Cache.Get (Cache.Get t).2 = ((Cache.Get t).1, (Cache.Get t).2)) ∧
    (∀ t : Process D, (Cache.Get t).2.heap ≠ t.heap → t.instance_ = none) := by
  have h1 : Cache.Get s = (p, s) := by
    unfold Cache.Get
    rw [h]
  refine ⟨h1, by rw [h1], ?_, ?_⟩
  · intro t
    cases ht : t.instance_ with
    | none => simp [Cache.Get, ht]
    | some q => simp [Cache.Get, ht]
  · intro t hne
    cases ht : t.instance_ with
    | none => rfl
    | some q =>
      exfalso
      apply hne
      simp [Cache.Get, ht]

/-- Evaluation of C9 on a memory whose instance holds the sample cache. -/
theorem Get_idempotent_witness :
    Cache.Get (⟨some 0, [sampleCache]⟩ : Process Nat) = (0, ⟨some 0, [sampleCache]⟩) ∧
    (Cache.Get (⟨some 0, [sampleCache]⟩ : Process Nat)).2.heap[0]? =
      (⟨some 0, [sampleCache]⟩ : Process Nat).heap[0]? ∧
    (∀ t : Process Nat, Cache.Get (Cache.Get t).2 = ((Cache.Get t).1, (Cache.Get t).2)) ∧
    (∀ t : Process Nat, (Cache.Get t).2.heap ≠ t.heap → t.instance_ = none) :=
  Get_idempotent ⟨some 0, [sampleCache]⟩ 0 rfl

theorem Get_valid {D : Type} (s : Process D) (h : s.valid) :
    (Cache.Get s).2.valid ∧ (Cache.Get s).1 < (Cache.Get s).2.heap.length := by
  cases hs : s.instance_ with
  | none =>
    constructor
    · intro p hp
      simp [Cache.Get, hs] at hp ⊢
      omega
    · simp [Cache.Get, hs]
  | some q =>
    have hq := h q hs
    have hg : Cache.Get s = (q, s) := by
      unfold Cache.Get
      rw [hs]
    rw [hg]
    exact ⟨h, hq⟩

/-! ## The convenience entry points -/

theorem cached_load_file_isSome {σ D E : Type} (lf : LoadFile σ D E)
    (path format_name : String) (options : List String) (s : Process D) (w : World σ)
    (h : s.valid) : (cached_load_file lf path format_name options s w).isSome = true := by
  have hp := (Get_valid s h).2
  unfold cached_load_file Process.load_file
  rw [List.getElem?_eq_getElem hp]
  rfl

/-- C6. `cached_load_file(path, options)` is `load_file(path, f, r)` on the singleton
(the object `Get()` returns, in the memory `Get()` leaves), with the same result and the
same effect, for every implementation `lf` of `load_file`: `(f, r) = ("", [])` when
`options` is empty, and `(f, r) = (o, rest)` when `options` is `o` followed by `rest`,
`rest` then having `|options| - 1` elements. From a memory whose `instance_` is `NULL` or
points to an object, the call is defined. -/
theorem cached_load_file_options_adapter {σ D E : Type} (lf : LoadFile σ D E)
    (path : String) (options : List String) (s : Process D) (w : World σ) :
    (options = [] →
      cached_load_file_options lf path options s w =
        Process.load_file lf (Cache.Get s).1 path "" [] (Cache.Get s).2 w) ∧
    (∀ o rest, options = o :: rest →
      cached_load_file_options lf path options s w =
        Process.load_file lf (Cache.Get s).1 path o rest (Cache.Get s).2 w ∧
      rest.length = options.length - 1) ∧
    (s.valid → (cached_load_file_options lf path options s w).isSome = true) := by
  refine ⟨?_, ?_, ?_⟩
  · rintro rfl
    rfl
  · rintro o rest rfl
    exact ⟨rfl, by simp⟩
  · intro h
    cases options with
    | nil => exact cached_load_file_isSome lf path "" [] s w h
    | cons o rest => exact cached_load_file_isSome lf path o rest s w h

/-- Evaluation of C6 with the modelled `load_file`, on a fresh process and the flat
list `["f", "o"]`: the format is `"f"`, the options are `["o"]`. -/
theorem cached_load_file_options_adapter_witness :
    cached_load_file_options (Cache.load_file sampleEnv) "a" ["f", "o"] ⟨none, []⟩
        sampleWorld =
      Process.load_file (Cache.load_file sampleEnv) 0 "a" "f" ["o"] ⟨some 0, [Cache.ctor]⟩
        sampleWorld ∧
    ["o"].length = ["f", "o"].length - 1 :=
  (cached_load_file_options_adapter (Cache.load_file sampleEnv) "a" ["f", "o"] ⟨none, []⟩
    sampleWorld).2.1 "f" ["o"] rfl

/-- C10. The flat adapter is not injective on keys: the one-element list `[""]` and the
empty list are different lists, yet for every implementation `lf` of `load_file`, every
memory and every world `cached_load_file(path, [""])` and `cached_load_file(path, [])` are
both the three-argument `cached_load_file(path, "", [])`, that is
`Get()->load_file(path, "", [])`. Conversely `cached_load_file(path, f :: r)` is the
three-argument `cached_load_file(path, f, r)`, that is `Get()->load_file(path, f, r)`. -/
theorem cached_load_file_options_not_injective {σ D E : Type} (lf : LoadFile σ D E)
    (path : String) (s : Process D) (w : World σ) :
    ([""] : List String) ≠ [] ∧
    cached_load_file_options lf path [""] s w = cached_load_file lf path "" [] s w ∧
    cached_load_file_options lf path [] s w = cached_load_file lf path "" [] s w ∧
    cached_load_file_options lf path [""] s w = cached_load_file_options lf path [] s w ∧
    cached_load_file lf path "" [] s w =
      Process.load_file lf (Cache.Get s).1 path "" [] (Cache.Get s).2 w ∧
    (∀ (f : String) (r : List String),
      cached_load_file_options lf path (f :: r) s w = cached_load_file lf path f r s w ∧
      cached_load_file lf path f r s w =
        Process.load_file lf (Cache.Get s).1 path f r (Cache.Get s).2 w) :=
  ⟨by simp, rfl, rfl, rfl, rfl, fun _ _ => ⟨rfl, rfl⟩⟩

/-! ## `load_file`: hits and misses -/

theorem is_match_iff {D : Type} (path format_name : String) (options : List String)
    (e : CachedFile D) :
    CachedFile.is_match path format_name options e = true ↔
      e.key = (path, format_name, options) := by
  simp [CachedFile.is_match, CachedFile.key, and_assoc]

theorem find_none_of_no_key {D : Type} (l : List (CachedFile D))
    (path format_name : String) (options : List String)
    (h : ∀ e ∈ l, e.key ≠ (path, format_name, options)) :
    l.find? (CachedFile.is_match path format_name options) = none := by
  rw [List.find?_eq_none]
  intro e he hm
  exact h e he ((is_match_iff path format_name options e).mp hm)

theorem load_file_miss {σ D E : Type} (env : Env σ D E) (c : Cache D) (w : World σ)
    (path format_name : String) (options : List String)
    (h : ∀ e ∈ c.cache_, e.key ≠ (path, format_name, options)) :
    Cache.load_file env c w path format_name options =
      (match (env.load path format_name options w.ext).1 with
        | Except.error err =>
          (Except.error err, c,
            { ext := (env.load path format_name options w.ext).2,
              loader_calls := w.loader_calls ++ [(path, format_name, options)] })
        | Except.ok ds =>
          (Except.ok ds,
            { n_cached_files_ := c.n_cached_files_,
              cache_ := trim c.n_cached_files_ (c.cache_ ++
                [CachedFile.ctor (env.time (env.load path format_name options w.ext).2)
                  path format_name options ds]) },
            { ext := (env.load path format_name options w.ext).2,
              loader_calls := w.loader_calls ++ [(path, format_name, options)] })) := by
  unfold Cache.load_file
  rw [find_none_of_no_key c.cache_ path format_name options h]

theorem load_file_miss_calls {σ D E : Type} (env : Env σ D E) (c : Cache D) (w : World σ)
    (path format_name : String) (options : List String)
    (h : ∀ e ∈ c.cache_, e.key ≠ (path, format_name, options)) :
    (Cache.load_file env c w path format_name options).2.2 =
      { ext := (env.load path format_name options w.ext).2,
        loader_calls := w.loader_calls ++ [(path, format_name, options)] } := by
  rw [load_file_miss env c w path format_name options h]
  cases (env.load path format_name options w.ext).1 <;> rfl

/-- C4. A failed load is atomic. If no entry with the requested key is resident and the
loader fails with `err`, then `load_file` fails with `err`, the cache afterwards is the
cache before (entry sequence and capacity, so no entry was created), the loader has been
invoked once, and the same request made next still finds no entry and invokes the loader
again. -/
theorem load_file_failure_atomic {σ D E : Type} (env : Env σ D E) (c : Cache D)
    (w : World σ) (path format_name : String) (options : List String) (err : E)
    (hmiss : ∀ e ∈ c.cache_, e.key ≠ (path, format_name, options))
    (hfail : (env.load path format_name options w.ext).1 = Except.error err) :
    (Cache.load_file env c w path format_name options).1 = Except.error err ∧
    (Cache.load_file env c w path format_name options).2.1 = c ∧
    (Cache.load_file env c w path format_name options).2.2 =
      { ext := (env.load path format_name options w.ext).2,
        loader_calls := w.loader_calls ++ [(path, format_name, options)] } ∧
    (∀ e ∈ (Cache.load_file env c w path format_name options).2.1.cache_,
      e.key ≠ (path, format_name, options)) ∧
    (Cache.load_file env (Cache.load_file env c w path format_name options).2.1
        (Cache.load_file env c w path format_name options).2.2
        path format_name options).2.2.loader_calls =
      w.loader_calls ++ [(path, format_name, options), (path, format_name, options)] := by
  have h1 := load_file_miss env c w path format_name options hmiss
  rw [hfail] at h1
  simp only at h1
  rw [h1]
  refine ⟨rfl, rfl, rfl, hmiss, ?_⟩
  rw [load_file_miss_calls env c _ path format_name options hmiss]
  simp

/-- Evaluation of C4 on the sample cache and the path the sample loader fails on. -/
theorem load_file_failure_atomic_witness :
    (Cache.load_file sampleEnv sampleCache sampleWorld "bad" "" []).1 =
      Except.error "cannot load" ∧
    (Cache.load_file sampleEnv sampleCache sampleWorld "bad" "" []).2.1 = sampleCache ∧
    (Cache.load_file sampleEnv sampleCache sampleWorld "bad" "" []).2.2 =
      { ext := (sampleEnv.load "bad" "" [] sampleWorld.ext).2,
        loader_calls := sampleWorld.loader_calls ++ [("bad", "", [])] } ∧
    (∀ e ∈ (Cache.load_file sampleEnv sampleCache sampleWorld "bad" "" []).2.1.cache_,
      e.key ≠ ("bad", "", [])) ∧
    (Cache.load_file sampleEnv
        (Cache.load_file sampleEnv sampleCache sampleWorld "bad" "" []).2.1
        (Cache.load_file sampleEnv sampleCache sampleWorld "bad" "" []).2.2
        "bad" "" []).2.2.loader_calls =
      sampleWorld.loader_calls ++ [("bad", "", []), ("bad", "", [])] :=
  load_file_failure_atomic sampleEnv sampleCache sampleWorld "bad" "" [] "cannot load"
    (by decide) (by decide)

/-! ## Reachable states -/

theorem load_file_cache_cases {σ D E : Type} (env : Env σ D E) (c : Cache D) (w : World σ)
    (path format_name : String) (options : List String) :
    (Cache.load_file env c w path format_name options).2.1 = c ∨
    ∃ e : CachedFile D, e.key = (path, format_name, options) ∧
      (∀ e1 ∈ c.cache_, e1.key ≠ (path, format_name, options)) ∧
      (Cache.load_file env c w path format_name options).2.1 =
        { n_cached_files_ := c.n_cached_files_,
          cache_ := trim c.n_cached_files_ (c.cache_ ++ [e]) } := by
  unfold Cache.load_file
  cases hf : c.cache_.find? (CachedFile.is_match path format_name options) with
  | some e0 => exact Or.inl rfl
  | none =>
    cases hl : (env.load path format_name options w.ext).1 with
    | error err =>
      left
      simp only [hl]
    | ok ds =>
      right
      refine ⟨CachedFile.ctor (env.time (env.load path format_name options w.ext).2)
        path format_name options ds, rfl, ?_, ?_⟩
      · intro e1 he1 hk
        rw [List.find?_eq_none] at hf
        exact hf e1 he1 ((is_match_iff path format_name options e1).mpr hk)
      · simp only [hl]

theorem trim_keys_nodup {D : Type} (n : Nat) (l : List (CachedFile D))
    (h : (l.map CachedFile.key).Nodup) : ((trim n l).map CachedFile.key).Nodup :=
  List.Nodup.sublist ((trim_suffix n l).sublist.map CachedFile.key) h

theorem step_inv {σ D E : Type} (env : Env σ D E) (cw : Cache D × World σ) (op : Op)
    (h : cw.1.inv) : (Cache.step env cw op).1.inv := by
  cases op with
  | load_file path format_name options =>
    show (Cache.load_file env cw.1 cw.2 path format_name options).2.1.inv
    rcases load_file_cache_cases env cw.1 cw.2 path format_name options with
      h1 | ⟨e, hk, hno, h1⟩
    · rw [h1]
      exact h
    · rw [h1]
      refine ⟨trim_length_le _ _, trim_keys_nodup _ _ ?_⟩
      rw [List.map_append, List.map_singleton]
      refine List.Nodup.append h.2 (List.nodup_singleton _) ?_
      intro k hk1 hk2
      rw [List.mem_singleton] at hk2
      obtain ⟨e1, he1, rfl⟩ := List.mem_map.mp hk1
      exact hno e1 he1 (hk2.trans hk)
  | set_number_of_cached_files n =>
    exact ⟨trim_length_le _ _, trim_keys_nodup _ _ h.2⟩
  | clear_cache =>
    exact ⟨Nat.zero_le _, List.nodup_nil⟩

theorem run_inv {σ D E : Type} (env : Env σ D E) (ops : List Op) :
    ∀ cw : Cache D × World σ, cw.1.inv → (Cache.run env cw ops).1.inv := by
  induction ops with
  | nil => exact fun _ h => h
  | cons op ops ih =>
    intro cw h
    exact ih (Cache.step env cw op) (step_inv env cw op h)

theorem ctor_inv {D : Type} : (Cache.ctor : Cache D).inv :=
  ⟨Nat.zero_le _, List.nodup_nil⟩

theorem run_keys_nodup {σ D E : Type} (env : Env σ D E) (w : World σ) (ops : List Op) :
    ((Cache.run env (Cache.ctor, w) ops).1.cache_.map CachedFile.key).Nodup :=
  (run_inv env ops (Cache.ctor, w) ctor_inv).2

/-- C3. Capacity invariant. Whatever the loader does (so hits, successful misses and
failed misses alike), in the state reached from a new cache (capacity 1, no entries) by
any finite sequence of `load_file`, `set_number_of_cached_files(n)` and `clear_cache()`
operations the length of the entry sequence is at most the current capacity. -/
theorem capacity_invariant {σ D E : Type} (env : Env σ D E) (w : World σ)
    (ops : List Op) :
    (Cache.ctor : Cache D).n_cached_files_ = 1 ∧ (Cache.ctor : Cache D).cache_ = [] ∧
    (Cache.run env ((Cache.ctor : Cache D), w) ops).1.cache_.length ≤
      (Cache.run env ((Cache.ctor : Cache D), w) ops).1.get_number_of_cached_files :=
  ⟨rfl, rfl, (run_inv env ops (Cache.ctor, w) ctor_inv).1⟩

theorem load_file_hit_first {σ D E : Type} (env : Env σ D E) (c : Cache D) (w : World σ)
    (path format_name : String) (options : List String) (e : CachedFile D)
    (hres : e ∈ c.cache_) (hk : e.key = (path, format_name, options)) :
    ∃ e0 ∈ c.cache_, e0.key = (path, format_name, options) ∧
      Cache.load_file env c w path format_name options = (Except.ok e0.dataset_, c, w) ∧
      ((c.cache_.map CachedFile.key).Nodup → e0 = e) := by
  cases hf : c.cache_.find? (CachedFile.is_match path format_name options) with
  | none =>
    rw [List.find?_eq_none] at hf
    exact absurd ((is_match_iff path format_name options e).mpr hk) (hf e hres)
  | some e0 =>
    have hm := List.find?_some hf
    have hmem := List.mem_of_find?_eq_some hf
    have hk0 := (is_match_iff path format_name options e0).mp hm
    refine ⟨e0, hmem, hk0, ?_, ?_⟩
    · unfold Cache.load_file
      rw [hf]
    · intro hnd
      exact List.inj_on_of_nodup_map hnd hmem hres (hk0.trans hk.symm)

/-- C1. Cache hit. If an entry `e` whose three key fields equal the request is resident,
`load_file` returns the stored handle of a resident entry `e0` with that key (the first
one the scan meets), leaves the cache (entry sequence and capacity) as it was and leaves
the world as it was: the loader is not invoked. `e0` is `e` itself whenever the keys of the
resident entries are pairwise distinct, and in particular in every state the operations
produce from a new cache. -/
theorem load_file_hit {σ D E : Type} (env : Env σ D E) (c : Cache D) (w : World σ)
    (path format_name : String) (options : List String) (e : CachedFile D)
    (hres : e ∈ c.cache_)
    (hkey : e.path_ = path ∧ e.format_name_ = format_name ∧ e.options_ = options) :
    ∃ e0 ∈ c.cache_, e0.key = (path, format_name, options) ∧
      Cache.load_file env c w path format_name options = (Except.ok e0.dataset_, c, w) ∧
      ((c.cache_.map CachedFile.key).Nodup → e0 = e) ∧
      (∀ (w0 : World σ) (ops : List Op),
        (Cache.run env ((Cache.ctor : Cache D), w0) ops).1 = c → e0 = e) := by
  have hk : e.key = (path, format_name, options) := by
    obtain ⟨h1, h2, h3⟩ := hkey
    simp [CachedFile.key, h1, h2, h3]
  obtain ⟨e0, hmem, hk0, hload, hnd⟩ :=
    load_file_hit_first env c w path format_name options e hres hk
  refine ⟨e0, hmem, hk0, hload, hnd, ?_⟩
  intro w0 ops hc
  apply hnd
  rw [← hc]
  exact run_keys_nodup env w0 ops

/-- Evaluation of C1 on the sample cache and its first entry. -/
theorem load_file_hit_witness :
    ∃ e0 ∈ sampleCache.cache_, e0.key = ("a", "", []) ∧
      Cache.load_file sampleEnv sampleCache sampleWorld "a" "" [] =
        (Except.ok e0.dataset_, sampleCache, sampleWorld) ∧
      ((sampleCache.cache_.map CachedFile.key).Nodup → e0 = sampleEntry) ∧
      (∀ (w0 : World Nat) (ops : List Op),
        (Cache.run sampleEnv ((Cache.ctor : Cache Nat), w0) ops).1 = sampleCache →
          e0 = sampleEntry) :=
  load_file_hit sampleEnv sampleCache sampleWorld "a" "" [] sampleEntry (by decide)
    (by decide)

/-! ## Oldest-first eviction -/

theorem load_files_cons {σ D E : Type} (env : Env σ D E) (c : Cache D) (w : World σ)
    (k : Key) (ks : List Key) :
    Cache.load_files env c w (k :: ks) =
      ((Cache.load_file env c w k.1 k.2.1 k.2.2).1 ::
        (Cache.load_files env (Cache.load_file env c w k.1 k.2.1 k.2.2).2.1
          (Cache.load_file env c w k.1 k.2.1 k.2.2).2.2 ks).1,
       (Cache.load_files env (Cache.load_file env c w k.1 k.2.1 k.2.2).2.1
          (Cache.load_file env c w k.1 k.2.1 k.2.2).2.2 ks).2) :=
  rfl

theorem load_file_miss_ok {σ D E : Type} (env : Env σ D E) (c : Cache D) (w : World σ)
    (k : Key) (h : ∀ e ∈ c.cache_, e.key ≠ k)
    (hok : ∃ d, (Cache.load_file env c w k.1 k.2.1 k.2.2).1 = Except.ok d) :
    ∃ e : CachedFile D, e.key = k ∧
      Cache.load_file env c w k.1 k.2.1 k.2.2 =
        (Except.ok e.dataset_,
          { n_cached_files_ := c.n_cached_files_,
            cache_ := trim c.n_cached_files_ (c.cache_ ++ [e]) },
          { ext := (env.load k.1 k.2.1 k.2.2 w.ext).2,
            loader_calls := w.loader_calls ++ [k] }) := by
  have hm := load_file_miss env c w k.1 k.2.1 k.2.2 h
  obtain ⟨d, hd⟩ := hok
  cases hl : (env.load k.1 k.2.1 k.2.2 w.ext).1 with
  | error err =>
    rw [hl] at hm
    rw [hm] at hd
    cases hd
  | ok ds =>
    rw [hl] at hm
    exact ⟨CachedFile.ctor (env.time (env.load k.1 k.2.1 k.2.2 w.ext).2) k.1 k.2.1 k.2.2 ds,
      rfl, hm⟩

theorem load_files_spec {σ D E : Type} (env : Env σ D E) (n : Nat) :
    ∀ (ks : List Key) (l : List (CachedFile D)) (w : World σ),
      l.length ≤ n →
      (l.map CachedFile.key ++ ks).Nodup →
      (∀ r ∈ (Cache.load_files env ⟨n, l⟩ w ks).1, ∃ d, r = Except.ok d) →
      ∃ es : List (CachedFile D), es.map CachedFile.key = ks ∧
        (Cache.load_files env ⟨n, l⟩ w ks).1 = es.map (fun e => Except.ok e.dataset_) ∧
        (Cache.load_files env ⟨n, l⟩ w ks).2.1 = ⟨n, trim n (l ++ es)⟩ ∧
        (Cache.load_files env ⟨n, l⟩ w ks).2.2.loader_calls = w.loader_calls ++ ks := by
  intro ks
  induction ks with
  | nil =>
    intro l w hl _ _
    refine ⟨[], rfl, rfl, ?_, ?_⟩
    · rw [List.append_nil, trim_of_length_le n l hl]
      rfl
    · rw [List.append_nil]
      rfl
  | cons k ks ih =>
    intro l w hl hnd hok
    have hmiss : ∀ e ∈ (⟨n, l⟩ : Cache D).cache_, e.key ≠ k := by
      intro e he hk
      have h1 : k ∈ l.map CachedFile.key := List.mem_map.mpr ⟨e, he, hk⟩
      exact (List.nodup_append.mp hnd).2.2 h1 (List.mem_cons_self k ks)
    rw [load_files_cons] at hok
    obtain ⟨e, hek, he⟩ := load_file_miss_ok env ⟨n, l⟩ w k hmiss
      (hok _ (List.mem_cons_self _ _))
    rw [load_files_cons, he]
    rw [he] at hok
    have hnd1 : ((trim n (l ++ [e])).map CachedFile.key ++ ks).Nodup := by
      have h2 : (l.map CachedFile.key ++ k :: ks) =
          (l ++ [e]).map CachedFile.key ++ ks := by
        simp [hek]
      rw [h2] at hnd
      exact List.Nodup.sublist
        (List.Sublist.append_right ((trim_suffix n (l ++ [e])).sublist.map CachedFile.key) ks)
        hnd
    obtain ⟨es, h1, h2, h3, h4⟩ := ih (trim n (l ++ [e])) _ (trim_length_le n _) hnd1
      (fun r hr => hok r (List.mem_cons_of_mem _ hr))
    refine ⟨e :: es, ?_, ?_, ?_, ?_⟩
    · simp [hek, h1]
    · show _ :: _ = _
      rw [h2]
      rfl
    · show (Cache.load_files env ⟨n, trim n (l ++ [e])⟩ _ ks).2.1 = _
      rw [h3, trim_trim_append]
      simp
    · show (Cache.load_files env ⟨n, trim n (l ++ [e])⟩ _ ks).2.2.loader_calls = _
      rw [h4]
      simp

/-- C2. Oldest-first eviction. Start from an empty cache of capacity `n` and call
`load_file` on the `n + 1` pairwise distinct keys `ks`, in order, every call succeeding;
let `rs` be the results, `c1` the cache and `w1` the world afterwards. Then no resident
entry of `c1` has the first key, and a request for the first key invokes the loader; and
for every later key (position `i ≥ 1`) a request returns the handle the load of that key
returned, leaving cache and world as they are: the loader is not invoked. -/
theorem fifo_eviction {σ D E : Type} (env : Env σ D E) (n : Nat) (w : World σ)
    (ks : List Key) (rs : List (Except E D)) (c1 : Cache D) (w1 : World σ)
    (hlen : ks.length = n + 1) (hnd : ks.Nodup)
    (hrun : Cache.load_files env { n_cached_files_ := n, cache_ := [] } w ks = (rs, c1, w1))
    (hok : ∀ r ∈ rs, ∃ d, r = Except.ok d) :
    (∀ k1, ks[0]? = some k1 →
      (∀ e ∈ c1.cache_, e.key ≠ k1) ∧
      (Cache.load_file env c1 w1 k1.1 k1.2.1 k1.2.2).2.2 =
        { ext := (env.load k1.1 k1.2.1 k1.2.2 w1.ext).2,
          loader_calls := w1.loader_calls ++ [k1] }) ∧
    (∀ i k, 1 ≤ i → ks[i]? = some k →
      (∃ e ∈ c1.cache_, e.key = k) ∧
      ∃ d, rs[i]? = some (Except.ok d) ∧
        Cache.load_file env c1 w1 k.1 k.2.1 k.2.2 = (Except.ok d, c1, w1)) := by
  obtain ⟨es, h1, h2, h3, _⟩ := load_files_spec env n ks [] w (Nat.zero_le _)
    (by simpa using hnd) (by rw [hrun]; exact hok)
  rw [hrun] at h2 h3
  simp only [List.nil_append] at h2 h3
  cases ks with
  | nil => simp at hlen
  | cons k0 rest =>
    cases es with
    | nil => simp at h1
    | cons e0 es1 =>
      simp only [List.map_cons, List.cons.injEq] at h1
      obtain ⟨hk0, hrest⟩ := h1
      have hl1 : es1.length = n := by
        have := congrArg List.length hrest
        simp only [List.length_map] at this
        simp only [List.length_cons] at hlen
        omega
      have htrim : trim n (e0 :: es1) = es1 := by
        unfold trim
        rw [if_pos (by simp only [List.length_cons]; omega)]
        exact trim_of_length_le n es1 (le_of_eq hl1)
      rw [htrim] at h3
      have hc : c1.cache_ = es1 := by rw [h3]
      have hnd0 := List.nodup_cons.mp hnd
      constructor
      · intro k1 hk1
        simp only [List.getElem?_cons_zero, Option.some.injEq] at hk1
        subst hk1
        have hno : ∀ e ∈ c1.cache_, e.key ≠ k0 := by
          intro e he hk
          rw [hc] at he
          apply hnd0.1
          rw [← hrest]
          exact List.mem_map.mpr ⟨e, he, hk⟩
        exact ⟨hno, load_file_miss_calls env c1 w1 k0.1 k0.2.1 k0.2.2 hno⟩
      · intro i k hi hk
        obtain ⟨j, rfl⟩ : ∃ j, i = j + 1 := ⟨i - 1, by omega⟩
        simp only [List.getElem?_cons_succ] at hk
        rw [← hrest, List.getElem?_map] at hk
        cases hej : es1[j]? with
        | none => simp [hej] at hk
        | some e =>
          rw [hej] at hk
          simp only [Option.map_some', Option.some.injEq] at hk
          have hmem : e ∈ c1.cache_ := by
            rw [hc]
            exact List.getElem?_mem hej
          have hkeys : (c1.cache_.map CachedFile.key).Nodup := by
            rw [hc, hrest]
            exact hnd0.2
          obtain ⟨e1, _, _, hload, heq⟩ := load_file_hit_first env c1 w1 k.1 k.2.1 k.2.2 e
            hmem hk
          rw [heq hkeys] at hload
          refine ⟨⟨e, hmem, hk⟩, e.dataset_, ?_, hload⟩
          rw [h2]
          simp [hej]

/-- Evaluation of C2 with capacity 2 and the keys `a`, `b`, `c`. -/
theorem fifo_eviction_witness :
    (∀ k1, [(("a", "", []) : Key), ("b", "", []), ("c", "", [])][0]? = some k1 →
      (∀ e ∈ sampleEvicted.cache_, e.key ≠ k1) ∧
      (Cache.load_file sampleEnv sampleEvicted sampleLoaded k1.1 k1.2.1 k1.2.2).2.2 =
        { ext := (sampleEnv.load k1.1 k1.2.1 k1.2.2 sampleLoaded.ext).2,
          loader_calls := sampleLoaded.loader_calls ++ [k1] }) ∧
    (∀ i k, 1 ≤ i →
      [(("a", "", []) : Key), ("b", "", []), ("c", "", [])][i]? = some k →
      (∃ e ∈ sampleEvicted.cache_, e.key = k) ∧
      ∃ d, [(Except.ok 0 : Except String Nat), Except.ok 1, Except.ok 2][i]? =
          some (Except.ok d) ∧
        Cache.load_file sampleEnv sampleEvicted sampleLoaded k.1 k.2.1 k.2.2 =
          (Except.ok d, sampleEvicted, sampleLoaded)) :=
  fifo_eviction sampleEnv 2 sampleWorld [("a", "", []), ("b", "", []), ("c", "", [])]
    [Except.ok 0, Except.ok 1, Except.ok 2] sampleEvicted sampleLoaded
    (by decide) (by decide) (by decide)
    (by
      intro r hr
      simp only [List.mem_cons, List.mem_singleton, List.not_mem_nil, or_false] at hr
      rcases hr with rfl | rfl | rfl
      · exact ⟨0, rfl⟩
      · exact ⟨1, rfl⟩
      · exact ⟨2, rfl⟩)

end xylib
